import Mathlib

/-!
Verification of the `prom` ORM base class (`prom/model.py`).

The repository provides a persistence base class `Orm`. Its collaborators
(`Schema`, `Field`, `Query`, `Interface`) are external modules that the spec
explicitly places out of scope, so they appear here abstractly:

* a `Schema` record carries the field names, the primary-key name, the
  required-field names and the normal (non-magic) field names that
  `model.py` reads off the schema object;
* each field's `iset` / `iget` hooks are abstract functions (`Iset`, `Iget`)
  supplied as parameters;
* the database is abstracted by the values the query object reports back
  (the primary key returned by `q.insert()`, the truthiness of
  `q.update()`), and every issued query is recorded in a `DbCall` trace so
  that "no database call was made" is expressible.

Python values are embedded as the inductive `Value`, with Python truthiness
(`bool(x)`) as `Value.truthy` and `None` as `Value.none`.  An `Orm` instance
is its attribute dictionary plus the `modified_fields` set; `getattr` with a
`None` default is total lookup defaulting to `Value.none`.  Exceptions are
`Except PyErr`.
-/

/-- Embedded Python values: `None`, ints, strings, bools, `datetime.date`
and `datetime.datetime` (year, month, day[, hour, minute, second,
microsecond]). -/
inductive Value where
  | none
  | vint (n : Int)
  | vstr (s : String)
  | vbool (b : Bool)
  | vdate (y m d : Nat)
  | vdatetime (y m d hh mm ss us : Nat)
  deriving DecidableEq, Repr

/-- Python truthiness of an embedded value (`bool(x)`). -/
def Value.truthy : Value → Bool
  | .none => false
  | .vint n => decide (n ≠ 0)
  | .vstr s => decide (s ≠ "")
  | .vbool b => b
  | .vdate _ _ _ => true
  | .vdatetime _ _ _ _ _ _ _ => true

/-- Whether the value is a `datetime.date` or `datetime.datetime` (the
`isinstance(field_val, (datetime.date, datetime.datetime))` test). -/
def Value.isDateLike : Value → Bool
  | .vdate _ _ _ => true
  | .vdatetime _ _ _ _ _ _ _ => true
  | _ => false

/-- The Python exceptions `model.py` can raise. -/
inductive PyErr where
  | keyError (msg : String)
  | valueError (msg : String)
  deriving DecidableEq, Repr

/-- The pieces of the external `Schema` collaborator that `model.py`
reads: `schema.fields` (all field names), `schema.pk.name`,
`schema.required_fields` (names), `schema.normal_fields` (names of the
non-magic fields). -/
structure Schema where
  fields : List String
  pk_name : String
  required_fields : List String
  normal_fields : List String
  deriving DecidableEq, Repr

/-- A database call issued through the query object. -/
inductive DbCall where
  | insert (fields : List (String × Value))
  | update (pkFilter : String × Value) (fields : List (String × Value))
  | delete (pkFilter : String × Value)
  deriving DecidableEq, Repr

/-- Abstract `Field.iset` hook: field name, current value, `is_update`,
`is_modified` to the value written. -/
abbrev Iset := String → Value → Bool → Bool → Value

/-- Abstract `Field.iget` hook: field name, raw value to hydrated value. -/
abbrev Iget := String → Value → Value

/-- Python `d[k] = v` on an ordered dict: replace in place or append. -/
def setAssoc : List (String × Value) → String → Value → List (String × Value)
  | [], k, v => [(k, v)]
  | kv :: rest, k, v =>
      if kv.1 = k then (k, v) :: rest else kv :: setAssoc rest k v

/-- Python `del d[k]` on a dict (removes any entry with key `k`). -/
def eraseAssoc (l : List (String × Value)) (k : String) : List (String × Value) :=
  l.filter (fun kv => kv.1 ≠ k)

/-- First value stored at `k`, if present. -/
def lookupAssoc : List (String × Value) → String → Option Value
  | [], _ => Option.none
  | kv :: rest, k => if kv.1 = k then some kv.2 else lookupAssoc rest k

/-- `d.get(k, None)`. -/
def lookupD (l : List (String × Value)) (k : String) : Value :=
  (lookupAssoc l k).getD Value.none

/-- `s.add(x)` on a set modelled as a duplicate-free list. -/
def madd (k : String) (l : List String) : List String :=
  if k ∈ l then l else l ++ [k]

/-- `s.update(ks)` on a set modelled as a duplicate-free list. -/
def maddAll (ks : List String) (l : List String) : List String :=
  ks.foldl (fun acc k => madd k acc) l

/-- An `Orm` instance: its attribute dictionary (absent key = attribute
never set; `getattr` with default `None` yields `Value.none`) and the
`modified_fields` set. -/
structure Orm where
  attrs : List (String × Value)
  modified_fields : List String
  deriving DecidableEq, Repr

/-- `getattr(self, k, None)`. -/
def Orm.getattrD (o : Orm) (k : String) : Value :=
  lookupD o.attrs k

/-- The `pk` property: `getattr(self, self.schema.pk.name, None)`. -/
def Orm.pk (s : Schema) (o : Orm) : Value :=
  o.getattrD s.pk_name

/-- `Orm.__setattr__`: store the attribute; if the name is a schema field,
add it to `modified_fields`, and if it is the primary key also mark every
normal field dirty. -/
def Orm.setattr (s : Schema) (o : Orm) (field_name : String) (field_val : Value) : Orm :=
  let m :=
    if field_name ∈ s.fields then
      if field_name = s.pk_name then
        maddAll s.normal_fields (madd field_name o.modified_fields)
      else
        madd field_name o.modified_fields
    else o.modified_fields
  { attrs := setAssoc o.attrs field_name field_val, modified_fields := m }

/-- `Orm.__delattr__`: mark a schema field dirty, then delete the
attribute.  The second component reports whether Python would raise
`AttributeError` (attribute absent); the dirty-marking happens first
either way. -/
def Orm.delattr (s : Schema) (o : Orm) (field_name : String) : Orm × Bool :=
  let m :=
    if field_name ∈ s.fields then madd field_name o.modified_fields
    else o.modified_fields
  ({ attrs := eraseAssoc o.attrs field_name, modified_fields := m },
   (lookupAssoc o.attrs field_name).isNone)

/-- `Orm.reset_modified`. -/
def Orm.reset_modified (o : Orm) : Orm :=
  { o with modified_fields := [] }

/-- `Orm.is_modified`: `len(self.modified_fields) > 0`. -/
def Orm.is_modified (o : Orm) : Bool :=
  decide (0 < o.modified_fields.length)

/-- `Orm.modify`: set every entry whose key is a schema field via
`__setattr__`, ignore the rest, and return the set of schema field names
actually set (the input dict is the combined `make_dict` result). -/
def Orm.modify (s : Schema) (o : Orm) (fields : List (String × Value)) : Orm × List String :=
  fields.foldl
    (fun acc kv =>
      if kv.1 ∈ s.fields then (acc.1.setattr s kv.1 kv.2, madd kv.1 acc.2)
      else acc)
    (o, [])

/-- `Orm.__init__`: start with an empty instance (`reset_modified`, an
empty attribute dict) and `modify` with the passed fields. -/
def Orm.init (s : Schema) (fields : List (String × Value)) : Orm :=
  (Orm.modify s { attrs := [], modified_fields := [] } fields).1

/-- `Orm.populate`: run every entry of `fields` through its field's `iget`
(`schema.fields[k].iget(self, v)` raises `KeyError` — modelled as `none` —
when a key is not a schema field), then `modify` and `reset_modified`. -/
def Orm.populate (s : Schema) (iget : Iget) (o : Orm) (fields : List (String × Value)) :
    Option Orm :=
  if fields.all (fun kv => decide (kv.1 ∈ s.fields)) then
    let fields' := fields.map (fun kv => (kv.1, iget kv.1 kv.2))
    some ((o.modify s fields').1.reset_modified)
  else Option.none

/-- `Orm.hydrate`: extend the passed dict so every schema field goes
through its `iget` (`fields[k] = field.iget(cls, fields.get(k, None))`),
build the instance with `__init__`, then `reset_modified`. -/
def Orm.hydrate (s : Schema) (iget : Iget) (fields : List (String × Value)) : Orm :=
  let fields' := s.fields.foldl (fun acc k => setAssoc acc k (iget k (lookupD acc k))) fields
  (Orm.init s fields').reset_modified

/-- The dict built by the main loop of `Orm.depopulate`: every schema
field is run through its `iset` with the `is_update` flag and
`is_modified := k in self.modified_fields`, and kept when the result
`is not None`. -/
def Orm.depopFields (s : Schema) (iset : Iset) (is_update : Bool) (o : Orm) :
    List (String × Value) :=
  s.fields.filterMap (fun k =>
    let v := iset k (o.getattrD k) is_update (decide (k ∈ o.modified_fields))
    if v = Value.none then Option.none else some (k, v))

/-- `Orm.depopulate`: build the dict of values to save; when
`is_update` is false, raise `KeyError` at the first required field
missing from that dict. -/
def Orm.depopulate (s : Schema) (iset : Iset) (o : Orm) (is_update : Bool) :
    Except PyErr (List (String × Value)) :=
  let fields := Orm.depopFields s iset is_update o
  if is_update then Except.ok fields
  else
    match s.required_fields.find? (fun k => (lookupAssoc fields k).isNone) with
    | some k => Except.error (PyErr.keyError ("Missing required field " ++ k))
    | Option.none => Except.ok fields

/-- `Orm.insert`: depopulate for insert, issue `q.insert()` with those
fields (the database's answer is the abstract `dbpk`); on a truthy
returned pk, add it to the fields and `populate`; otherwise return
`False`.  Result: (return value or exception, instance state after,
issued database calls). -/
def Orm.insert (s : Schema) (iset : Iset) (iget : Iget) (dbpk : Value) (o : Orm) :
    Except PyErr Bool × Orm × List DbCall :=
  match Orm.depopulate s iset o false with
  | Except.error e => (Except.error e, o, [])
  | Except.ok fields =>
    if dbpk.truthy then
      let fields' := setAssoc fields s.pk_name dbpk
      match o.populate s iget fields' with
      | some o' => (Except.ok true, o', [DbCall.insert fields])
      | Option.none =>
          (Except.error (PyErr.keyError "populate"), o, [DbCall.insert fields])
    else (Except.ok false, o, [DbCall.insert fields])

/-- `Orm.update`: depopulate for update, set the fields on the query,
then raise `ValueError` when the pk is falsy, otherwise filter on the pk
and issue `q.update()` (the database's answer is the abstract `dbOk`);
on success `populate` with the query's fields. -/
def Orm.update (s : Schema) (iset : Iset) (iget : Iget) (dbOk : Bool) (o : Orm) :
    Except PyErr Bool × Orm × List DbCall :=
  match Orm.depopulate s iset o true with
  | Except.error e => (Except.error e, o, [])
  | Except.ok fields =>
    let pk := Orm.pk s o
    if pk.truthy then
      let call := DbCall.update (s.pk_name, pk) fields
      if dbOk then
        match o.populate s iget fields with
        | some o' => (Except.ok true, o', [call])
        | Option.none => (Except.error (PyErr.keyError "populate"), o, [call])
      else (Except.ok false, o, [call])
    else
      (Except.error (PyErr.valueError "You cannot update without a primary key"), o, [])

/-- `Orm.save`: use the primary key only when it has not been modified
(`pk = None; if pk_name not in modified_fields: pk = self.pk`); update on
a truthy pk, insert otherwise, returning what the chosen operation
returns. -/
def Orm.save (s : Schema) (iset : Iset) (iget : Iget) (dbpk : Value) (dbOk : Bool)
    (o : Orm) : Except PyErr Bool × Orm × List DbCall :=
  let pk := if s.pk_name ∈ o.modified_fields then Value.none else Orm.pk s o
  if pk.truthy then Orm.update s iset iget dbOk o
  else Orm.insert s iset iget dbpk o

/-- `Orm.delete`: when the pk is truthy, issue the delete query, set the
pk attribute to `None` (through `__setattr__`), `reset_modified`, then
mark every schema field whose value `!= None` as modified and return
`True`; otherwise do nothing and return `False`. -/
def Orm.delete (s : Schema) (o : Orm) : Bool × Orm × List DbCall :=
  let pk := Orm.pk s o
  if pk.truthy then
    let o1 := o.setattr s s.pk_name Value.none
    let o2 := o1.reset_modified
    let o3 := { o2 with
      modified_fields := s.fields.filter (fun k => o2.getattrD k ≠ Value.none) }
    (true, o3, [DbCall.delete (s.pk_name, pk)])
  else (false, o, [])

/-- Zero-pad a natural number to `w` digits (`strftime` field padding). -/
def padNat (w : Nat) (n : Nat) : String :=
  let d := toString n
  String.mk (List.replicate (w - d.length) '0') ++ d

/-- `Orm.datestamp`: format `"%Y-%m-%dT%H:%M:%S.%fZ"` for datetimes and
`"%Y-%m-%d"` otherwise. -/
def Orm.datestamp : Value → String
  | .vdate y m d => padNat 4 y ++ "-" ++ padNat 2 m ++ "-" ++ padNat 2 d
  | .vdatetime y m d hh mm ss us =>
      padNat 4 y ++ "-" ++ padNat 2 m ++ "-" ++ padNat 2 d ++ "T" ++
      padNat 2 hh ++ ":" ++ padNat 2 mm ++ ":" ++ padNat 2 ss ++ "." ++
      padNat 6 us ++ "Z"
  | _ => ""

/-- `Orm.jsonable_field`: a non-`None` date or datetime becomes its
datestamp string; everything else passes through. -/
def Orm.jsonable_field (o : Orm) (field_name : String) (field_val : Value) : Value :=
  if field_val ≠ Value.none ∧ field_val.isDateLike = true then
    Value.vstr (Orm.datestamp field_val)
  else field_val

/-- `Orm.jsonable`: over the schema's normal fields, take
`getattr(self, k, None)`, run it through `jsonable_field`, and keep the
entry when the result `is not None`. -/
def Orm.jsonable (s : Schema) (o : Orm) : List (String × Value) :=
  s.normal_fields.filterMap (fun k =>
    let v := o.jsonable_field k (o.getattrD k)
    if v = Value.none then Option.none else some (k, v))

/-! ### Helper lemmas about the set and dict models -/

theorem mem_madd_iff {k k' : String} {l : List String} :
    k ∈ madd k' l ↔ k = k' ∨ k ∈ l := by
  unfold madd
  by_cases h : k' ∈ l
  · rw [if_pos h]
    constructor
    · exact Or.inr
    · rintro (rfl | hk)
      · exact h
      · exact hk
  · rw [if_neg h]
    simp [List.mem_append, or_comm]

theorem mem_madd_self (k : String) (l : List String) : k ∈ madd k l :=
  mem_madd_iff.mpr (Or.inl rfl)

theorem mem_madd_of_mem {k : String} (k' : String) {l : List String} (h : k ∈ l) :
    k ∈ madd k' l :=
  mem_madd_iff.mpr (Or.inr h)

theorem mem_maddAll_of_mem {k : String} (ks : List String) {l : List String}
    (h : k ∈ l) : k ∈ maddAll ks l := by
  induction ks generalizing l with
  | nil => exact h
  | cons a as ih => exact ih (mem_madd_of_mem a h)

theorem mem_maddAll_of_mem_ks {k : String} {ks : List String} (l : List String)
    (h : k ∈ ks) : k ∈ maddAll ks l := by
  induction ks generalizing l with
  | nil => cases h
  | cons a as ih =>
    rcases List.mem_cons.mp h with rfl | hk
    · exact mem_maddAll_of_mem as (mem_madd_self k l)
    · exact ih (madd a l) hk

theorem lookupAssoc_setAssoc_self (l : List (String × Value)) (k : String) (v : Value) :
    lookupAssoc (setAssoc l k v) k = some v := by
  induction l with
  | nil => simp [setAssoc, lookupAssoc]
  | cons kv rest ih =>
    by_cases h : kv.1 = k
    · simp [setAssoc, h, lookupAssoc]
    · simp [setAssoc, h, lookupAssoc, ih]

theorem lookupAssoc_setAssoc_ne (l : List (String × Value)) (k : String) (v : Value)
    {k' : String} (h : k' ≠ k) :
    lookupAssoc (setAssoc l k v) k' = lookupAssoc l k' := by
  induction l with
  | nil =>
    show (if k = k' then some v else Option.none) = Option.none
    rw [if_neg (fun hh => h hh.symm)]
  | cons kv rest ih =>
    by_cases hk : kv.1 = k
    · show lookupAssoc (if kv.1 = k then (k, v) :: rest else kv :: setAssoc rest k v) k' = _
      rw [if_pos hk]
      show (if k = k' then some v else lookupAssoc rest k') =
        (if kv.1 = k' then some kv.2 else lookupAssoc rest k')
      rw [if_neg (fun hh => h hh.symm), if_neg (by rw [hk]; exact fun hh => h hh.symm)]
    · show lookupAssoc (if kv.1 = k then (k, v) :: rest else kv :: setAssoc rest k v) k' = _
      rw [if_neg hk]
      show (if kv.1 = k' then some kv.2 else lookupAssoc (setAssoc rest k v) k') =
        (if kv.1 = k' then some kv.2 else lookupAssoc rest k')
      rw [ih]

theorem getattrD_setattr_self (s : Schema) (o : Orm) (k : String) (v : Value) :
    (o.setattr s k v).getattrD k = v := by
  simp [Orm.setattr, Orm.getattrD, lookupD, lookupAssoc_setAssoc_self]

theorem getattrD_setattr_ne (s : Schema) (o : Orm) (k : String) (v : Value)
    {k' : String} (h : k' ≠ k) : (o.setattr s k v).getattrD k' = o.getattrD k' := by
  simp [Orm.setattr, Orm.getattrD, lookupD, lookupAssoc_setAssoc_ne _ _ _ h]

/-! ### Helper lemmas about the lifecycle methods -/

theorem depopulate_is_update_ok (s : Schema) (iset : Iset) (o : Orm) :
    Orm.depopulate s iset o true = Except.ok (Orm.depopFields s iset true o) := rfl

theorem populate_modified_eq_nil {s : Schema} {iget : Iget} {o o' : Orm}
    {fields : List (String × Value)} (h : Orm.populate s iget o fields = some o') :
    o'.modified_fields = [] := by
  unfold Orm.populate at h
  split at h
  · exact (Option.some.injEq _ _ ▸ h.symm) ▸ rfl
  · cases h

/-- Membership in the output of the depopulate loop: a key is present
exactly when it is a schema field whose `iset` result is not `None`, and
then it carries that `iset` result. -/
theorem mem_depopFields_iff (s : Schema) (iset : Iset) (is_update : Bool) (o : Orm)
    (k : String) (v : Value) :
    (k, v) ∈ Orm.depopFields s iset is_update o ↔
      k ∈ s.fields ∧
        iset k (o.getattrD k) is_update (decide (k ∈ o.modified_fields)) = v ∧
        v ≠ Value.none := by
  unfold Orm.depopFields
  rw [List.mem_filterMap]
  constructor
  · rintro ⟨a, ha, hf⟩
    by_cases hv : iset a (o.getattrD a) is_update (decide (a ∈ o.modified_fields)) = Value.none
    · simp [hv] at hf
    · rw [if_neg hv] at hf
      obtain ⟨rfl, rfl⟩ := Prod.mk.injEq .. ▸ Option.some.injEq _ _ ▸ hf
      exact ⟨ha, rfl, hv⟩
  · rintro ⟨hk, hs, hv⟩
    refine ⟨k, hk, ?_⟩
    rw [hs, if_neg hv]

/-- The fold step of `Orm.modify`, named so the fold lemmas can
quantify over the accumulator. -/
def modifyStep (s : Schema) (acc : Orm × List String) (kv : String × Value) :
    Orm × List String :=
  if kv.1 ∈ s.fields then (acc.1.setattr s kv.1 kv.2, madd kv.1 acc.2)
  else acc

theorem modify_eq_foldl (s : Schema) (o : Orm) (fields : List (String × Value)) :
    Orm.modify s o fields = fields.foldl (modifyStep s) (o, []) := rfl

theorem modify_foldl_snd_mem (s : Schema) (fs : List (String × Value))
    (p : Orm × List String) (k : String) :
    k ∈ (fs.foldl (modifyStep s) p).2 ↔
      k ∈ p.2 ∨ ((∃ v, (k, v) ∈ fs) ∧ k ∈ s.fields) := by
  induction fs generalizing p with
  | nil => simp
  | cons kv rest ih =>
    rw [List.foldl_cons, ih]
    by_cases hs : kv.1 ∈ s.fields
    · rw [show modifyStep s p kv = (p.1.setattr s kv.1 kv.2, madd kv.1 p.2) from
        if_pos hs]
      constructor
      · rintro (hm | hrest)
        · rcases mem_madd_iff.mp hm with rfl | hp
          · exact Or.inr ⟨⟨kv.2, List.mem_cons_self _ _⟩, hs⟩
          · exact Or.inl hp
        · rcases hrest with ⟨⟨v, hv⟩, hks⟩
          exact Or.inr ⟨⟨v, List.mem_cons_of_mem _ hv⟩, hks⟩
      · rintro (hp | ⟨⟨v, hv⟩, hks⟩)
        · exact Or.inl (mem_madd_of_mem _ hp)
        · rcases List.mem_cons.mp hv with heq | hv'
          · exact Or.inl (mem_madd_iff.mpr (Or.inl (congrArg Prod.fst heq)))
          · exact Or.inr ⟨⟨v, hv'⟩, hks⟩
    · rw [show modifyStep s p kv = p from if_neg hs]
      constructor
      · rintro (hp | ⟨⟨v, hv⟩, hks⟩)
        · exact Or.inl hp
        · exact Or.inr ⟨⟨v, List.mem_cons_of_mem _ hv⟩, hks⟩
      · rintro (hp | ⟨⟨v, hv⟩, hks⟩)
        · exact Or.inl hp
        · rcases List.mem_cons.mp hv with heq | hv'
          · exact absurd ((congrArg Prod.fst heq : k = kv.1) ▸ hks) hs
          · exact Or.inr ⟨⟨v, hv'⟩, hks⟩

theorem modify_foldl_fst_not_mem_schema (s : Schema) (fs : List (String × Value))
    (p : Orm × List String) {k : String} (h : k ∉ s.fields) :
    (fs.foldl (modifyStep s) p).1.getattrD k = p.1.getattrD k := by
  induction fs generalizing p with
  | nil => rfl
  | cons kv rest ih =>
    rw [List.foldl_cons, ih]
    by_cases hs : kv.1 ∈ s.fields
    · rw [show modifyStep s p kv = (p.1.setattr s kv.1 kv.2, madd kv.1 p.2) from
        if_pos hs]
      exact getattrD_setattr_ne s p.1 kv.1 kv.2 (fun hk => h (hk ▸ hs))
    · rw [show modifyStep s p kv = p from if_neg hs]

theorem modify_foldl_fst_not_mem_keys (s : Schema) (fs : List (String × Value))
    (p : Orm × List String) {k : String} (h : k ∉ fs.map Prod.fst) :
    (fs.foldl (modifyStep s) p).1.getattrD k = p.1.getattrD k := by
  induction fs generalizing p with
  | nil => rfl
  | cons kv rest ih =>
    have hne : k ≠ kv.1 := fun hk =>
      h (hk ▸ List.mem_cons_self _ _ : k ∈ kv.1 :: rest.map Prod.fst)
    have hrest : k ∉ rest.map Prod.fst := fun hk => h (List.mem_cons_of_mem _ hk)
    rw [List.foldl_cons, ih _ hrest]
    by_cases hs : kv.1 ∈ s.fields
    · rw [show modifyStep s p kv = (p.1.setattr s kv.1 kv.2, madd kv.1 p.2) from
        if_pos hs]
      exact getattrD_setattr_ne s p.1 kv.1 kv.2 hne
    · rw [show modifyStep s p kv = p from if_neg hs]

theorem setattr_modified_eq (s : Schema) (o : Orm) (k : String) (v : Value) :
    (o.setattr s k v).modified_fields =
      if k ∈ s.fields then
        if k = s.pk_name then maddAll s.normal_fields (madd k o.modified_fields)
        else madd k o.modified_fields
      else o.modified_fields := rfl

theorem delattr_modified_eq (s : Schema) (o : Orm) (k : String) :
    (o.delattr s k).1.modified_fields =
      if k ∈ s.fields then madd k o.modified_fields else o.modified_fields := rfl

theorem modify_foldl_fst_set (s : Schema) (fs : List (String × Value))
    (p : Orm × List String) {k : String} {v : Value}
    (hnd : (fs.map Prod.fst).Nodup) (hkv : (k, v) ∈ fs) (hks : k ∈ s.fields) :
    (fs.foldl (modifyStep s) p).1.getattrD k = v := by
  induction fs generalizing p with
  | nil => cases hkv
  | cons kv rest ih =>
    rw [List.map_cons, List.nodup_cons] at hnd
    rcases List.mem_cons.mp hkv with heq | hv'
    · have hk1 : kv.1 = k := (congrArg Prod.fst heq).symm
      have hnotrest : k ∉ rest.map Prod.fst := hk1 ▸ hnd.1
      rw [List.foldl_cons, modify_foldl_fst_not_mem_keys s rest _ hnotrest]
      rw [show modifyStep s p kv = (p.1.setattr s kv.1 kv.2, madd kv.1 p.2) from
        if_pos (hk1 ▸ hks)]
      have hv2 : kv.2 = v := congrArg Prod.snd heq.symm
      rw [hk1, hv2]
      exact getattrD_setattr_self s p.1 k v
    · rw [List.foldl_cons]
      exact ih _ hnd.2 hv'

/-! ### Concrete schema, hooks and instances used by the witnesses -/

/-- A concrete schema like the `User` example in the module docstring:
the three magic fields plus two normal fields, `foo` required. -/
def egSchema : Schema :=
  { fields := ["_id", "_created", "_updated", "foo", "bar"],
    pk_name := "_id",
    required_fields := ["foo"],
    normal_fields := ["foo", "bar"] }

/-- Identity `iset` hook (a plain field with no isetter). -/
def egIset : Iset := fun _ v _ _ => v

/-- Identity `iget` hook (a plain field with no igetter). -/
def egIget : Iget := fun _ v => v

/-- An instance with no primary key set. -/
def egOrmNoPk : Orm := { attrs := [("foo", Value.vint 5)], modified_fields := [] }

/-- A clean (unmodified) instance loaded with a primary key. -/
def egOrmClean : Orm :=
  { attrs := [("_id", Value.vint 1), ("foo", Value.vint 5)], modified_fields := [] }

/-! ### Claim theorems -/

/-- C1: `save()` decides between INSERT and UPDATE: it runs `update()`
exactly when the primary-key field is truthy and its name is not in
`modified_fields`; in every other case it runs `insert()`, and it returns
whatever the chosen operation returns (shown by returning that
operation's whole outcome: result, new state and issued calls). -/
theorem save_update_iff_pk_set_and_unmodified (s : Schema) (iset : Iset)
    (iget : Iget) (dbpk : Value) (dbOk : Bool) (o : Orm) :
    Orm.save s iset iget dbpk dbOk o =
      if s.pk_name ∉ o.modified_fields ∧ (Orm.pk s o).truthy = true
      then Orm.update s iset iget dbOk o
      else Orm.insert s iset iget dbpk o := by
  unfold Orm.save
  by_cases hm : s.pk_name ∈ o.modified_fields
  · simp [hm, Value.truthy]
  · by_cases ht : (Orm.pk s o).truthy = true
    · simp [hm, ht]
    · simp [hm, ht]

/-- C2: `depopulate(is_update=False)` raises a `KeyError` exactly when a
required field is missing from the dict of values to save (the post-`iset`
dict `depopFields`); `depopulate(is_update=True)` never raises; and
`insert()` propagates the `depopulate` exception. -/
theorem depopulate_missing_required_raises (s : Schema) (iset : Iset) (iget : Iget)
    (dbpk : Value) (o : Orm) :
    ((∃ m, Orm.depopulate s iset o false = Except.error (PyErr.keyError m)) ↔
       ∃ k ∈ s.required_fields,
         lookupAssoc (Orm.depopFields s iset false o) k = Option.none)
    ∧ Orm.depopulate s iset o true = Except.ok (Orm.depopFields s iset true o)
    ∧ (∀ e, Orm.depopulate s iset o false = Except.error e →
        (Orm.insert s iset iget dbpk o).1 = Except.error e) := by
  refine ⟨?_, depopulate_is_update_ok s iset o, ?_⟩
  · unfold Orm.depopulate
    cases hf : List.find?
        (fun k => (lookupAssoc (Orm.depopFields s iset false o) k).isNone)
        s.required_fields with
    | none =>
      simp only [hf]
      constructor
      · rintro ⟨m, hm⟩
        simp at hm
      · rintro ⟨k, hk, hnone⟩
        have hx := List.find?_eq_none.mp hf k hk
        rw [hnone] at hx
        simp at hx
    | some k =>
      simp only [hf]
      constructor
      · intro _
        refine ⟨k, List.mem_of_find?_eq_some hf, ?_⟩
        have hp := List.find?_some hf
        simp only [Option.isNone_iff_eq_none] at hp
        exact hp
      · intro _
        exact ⟨"Missing required field " ++ k, rfl⟩
  · intro e he
    simp [Orm.insert, he]

/-- C3: `update()` on an instance whose primary key is unset (falsy)
raises `ValueError`, issues no database call, and leaves the instance
(fields and `modified_fields`) unchanged. -/
theorem update_without_pk_raises (s : Schema) (iset : Iset) (iget : Iget)
    (dbOk : Bool) (o : Orm) (h : (Orm.pk s o).truthy = false) :
    Orm.update s iset iget dbOk o =
      (Except.error (PyErr.valueError "You cannot update without a primary key"),
       o, []) := by
  unfold Orm.update
  rw [depopulate_is_update_ok]
  simp [h]

/-- Witness for C3 at a concrete pk-less instance. -/
theorem update_without_pk_raises_w :
    (Orm.pk egSchema egOrmNoPk).truthy = false ∧
    Orm.update egSchema egIset egIget true egOrmNoPk =
      (Except.error (PyErr.valueError "You cannot update without a primary key"),
       egOrmNoPk, []) :=
  ⟨by decide,
   update_without_pk_raises egSchema egIset egIget true egOrmNoPk (by decide)⟩

/-- C5: dirty-field tracking is complete: setting or deleting a
schema-field attribute adds its name to `modified_fields`; setting or
deleting a non-schema attribute leaves `modified_fields` unchanged. -/
theorem setattr_delattr_dirty_tracking (s : Schema) (o : Orm) (k : String) (v : Value) :
    (k ∈ s.fields →
       k ∈ (o.setattr s k v).modified_fields ∧
       k ∈ (o.delattr s k).1.modified_fields)
    ∧ (k ∉ s.fields →
       (o.setattr s k v).modified_fields = o.modified_fields ∧
       (o.delattr s k).1.modified_fields = o.modified_fields) := by
  constructor
  · intro hk
    constructor
    · rw [setattr_modified_eq, if_pos hk]
      by_cases hpk : k = s.pk_name
      · rw [if_pos hpk]
        exact mem_maddAll_of_mem _ (mem_madd_self k _)
      · rw [if_neg hpk]
        exact mem_madd_self k _
    · rw [delattr_modified_eq, if_pos hk]
      exact mem_madd_self k _
  · intro hk
    exact ⟨by rw [setattr_modified_eq, if_neg hk],
           by rw [delattr_modified_eq, if_neg hk]⟩

/-- Witness for C5 at a schema field and a non-schema name. -/
theorem setattr_delattr_dirty_tracking_w :
    ("foo" ∈ egSchema.fields ∧
       "foo" ∈ (egOrmNoPk.setattr egSchema "foo" (Value.vint 9)).modified_fields ∧
       "foo" ∈ (egOrmNoPk.delattr egSchema "foo").1.modified_fields)
    ∧ ("nope" ∉ egSchema.fields ∧
       (egOrmNoPk.setattr egSchema "nope" (Value.vint 9)).modified_fields =
         egOrmNoPk.modified_fields ∧
       (egOrmNoPk.delattr egSchema "nope").1.modified_fields =
         egOrmNoPk.modified_fields) := by
  constructor
  · have h := (setattr_delattr_dirty_tracking egSchema egOrmNoPk "foo"
      (Value.vint 9)).1 (by decide)
    exact ⟨by decide, h.1, h.2⟩
  · have h := (setattr_delattr_dirty_tracking egSchema egOrmNoPk "nope"
      (Value.vint 9)).2 (by decide)
    exact ⟨by decide, h.1, h.2⟩

/-- C8: assigning the primary-key attribute marks the primary-key name
and every normal field as modified. -/
theorem setattr_pk_dirties_all_fields (s : Schema) (o : Orm) (v : Value)
    (hpk : s.pk_name ∈ s.fields) :
    s.pk_name ∈ (o.setattr s s.pk_name v).modified_fields ∧
    ∀ k ∈ s.normal_fields, k ∈ (o.setattr s s.pk_name v).modified_fields := by
  rw [setattr_modified_eq, if_pos hpk, if_pos rfl]
  exact ⟨mem_maddAll_of_mem _ (mem_madd_self _ _),
         fun k hk => mem_maddAll_of_mem_ks _ hk⟩

/-- Witness for C8 at the concrete schema. -/
theorem setattr_pk_dirties_all_fields_w :
    egSchema.pk_name ∈ egSchema.fields ∧
    egSchema.pk_name ∈
      (egOrmNoPk.setattr egSchema egSchema.pk_name (Value.vint 3)).modified_fields ∧
    "foo" ∈ (egOrmNoPk.setattr egSchema egSchema.pk_name (Value.vint 3)).modified_fields ∧
    "bar" ∈ (egOrmNoPk.setattr egSchema egSchema.pk_name (Value.vint 3)).modified_fields := by
  have h := setattr_pk_dirties_all_fields egSchema egOrmNoPk (Value.vint 3) (by decide)
  exact ⟨by decide, h.1, h.2 "foo" (by decide), h.2 "bar" (by decide)⟩

/-- An instance with a date value, for the jsonable witness. -/
def egOrmDate : Orm :=
  { attrs := [("foo", Value.vdate 2020 1 2)], modified_fields := [] }

/-- An empty instance (no attributes set). -/
def egOrmEmpty : Orm := { attrs := [], modified_fields := [] }

/-- The populated state reached from `egOrmClean` by
`populate({foo: 9})`. -/
def egOrmPop : Orm :=
  { attrs := [("_id", Value.vint 1), ("foo", Value.vint 9)], modified_fields := [] }

/-- Witness for C2 at an instance missing the required field `foo`. -/
theorem depopulate_missing_required_raises_w :
    Orm.depopulate egSchema egIset egOrmEmpty true =
      Except.ok (Orm.depopFields egSchema egIset true egOrmEmpty) ∧
    (Orm.insert egSchema egIset egIget (Value.vint 7) egOrmEmpty).1 =
      Except.error (PyErr.keyError "Missing required field foo") := by
  have h := depopulate_missing_required_raises egSchema egIset egIget
    (Value.vint 7) egOrmEmpty
  exact ⟨h.2.1, h.2.2 _ rfl⟩

/-- C4 counterexample: updating a clean (nothing modified) instance hands
the query a dict containing `foo`, a column not recorded in
`modified_fields`, so the written columns are not limited to the modified
ones. -/
theorem depopulate_not_limited_to_modified_cex :
    "foo" ∉ egOrmClean.modified_fields ∧
    Orm.depopulate egSchema egIset egOrmClean true =
      Except.ok [("_id", Value.vint 1), ("foo", Value.vint 5)] ∧
    (Orm.update egSchema egIset egIget true egOrmClean).2.2 =
      [DbCall.update ("_id", Value.vint 1)
        [("_id", Value.vint 1), ("foo", Value.vint 5)]] :=
  ⟨by decide, rfl, rfl⟩

/-- C4 amended: the dict handed to the query contains exactly the schema
fields whose `iset`-processed value is not `None`; membership in
`modified_fields` does not restrict it (it only feeds each field's
`is_modified` flag). -/
theorem depopulate_fields_exactly_nonnone_iset (s : Schema) (iset : Iset)
    (is_update : Bool) (o : Orm) (k : String) :
    (∃ v, (k, v) ∈ Orm.depopFields s iset is_update o) ↔
      k ∈ s.fields ∧
        iset k (o.getattrD k) is_update (decide (k ∈ o.modified_fields)) ≠
          Value.none := by
  constructor
  · rintro ⟨v, hv⟩
    obtain ⟨hk, hs, hvn⟩ := (mem_depopFields_iff s iset is_update o k v).mp hv
    exact ⟨hk, hs ▸ hvn⟩
  · rintro ⟨hk, hne⟩
    exact ⟨_, (mem_depopFields_iff s iset is_update o k _).mpr ⟨hk, rfl, hne⟩⟩

theorem is_modified_false_of_nil {o : Orm} (h : o.modified_fields = []) :
    o.is_modified = false := by
  simp [Orm.is_modified, h]

theorem insert_ok_true_modified_nil {s : Schema} {iset : Iset} {iget : Iget}
    {dbpk : Value} {o : Orm}
    (h : (Orm.insert s iset iget dbpk o).1 = Except.ok true) :
    (Orm.insert s iset iget dbpk o).2.1.modified_fields = [] := by
  unfold Orm.insert at h ⊢
  cases hd : Orm.depopulate s iset o false with
  | error e => simp [hd] at h
  | ok fields =>
    simp only [hd] at h ⊢
    by_cases ht : dbpk.truthy = true
    · simp only [ht, if_true] at h ⊢
      cases hp : Orm.populate s iget o (setAssoc fields s.pk_name dbpk) with
      | some o' =>
        simp only [hp]
        exact populate_modified_eq_nil hp
      | none => simp [hp] at h
    · simp [ht] at h

theorem update_ok_true_modified_nil {s : Schema} {iset : Iset} {iget : Iget}
    {dbOk : Bool} {o : Orm}
    (h : (Orm.update s iset iget dbOk o).1 = Except.ok true) :
    (Orm.update s iset iget dbOk o).2.1.modified_fields = [] := by
  unfold Orm.update at h ⊢
  rw [depopulate_is_update_ok] at h ⊢
  by_cases hpk : (Orm.pk s o).truthy = true
  · simp only [hpk, if_true] at h ⊢
    by_cases hok : dbOk = true
    · simp only [hok, if_true] at h ⊢
      cases hp : Orm.populate s iget o (Orm.depopFields s iset true o) with
      | some o' =>
        simp only [hp]
        exact populate_modified_eq_nil hp
      | none => simp [hp] at h
    · simp [hok] at h
  · simp [hpk] at h

/-- C6: modification tracking resets at persistence boundaries: after
`hydrate()`, after `populate()` returns, and after a successful
`insert()` or `update()` (query reports success, i.e. the returned value
is `True`), `modified_fields` is empty and `is_modified()` is `False`. -/
theorem persistence_resets_modified (s : Schema) (iset : Iset) (iget : Iget)
    (dbpk : Value) (dbOk : Bool) (fields : List (String × Value)) (o o' : Orm) :
    ((Orm.hydrate s iget fields).modified_fields = [] ∧
       (Orm.hydrate s iget fields).is_modified = false)
    ∧ (Orm.populate s iget o fields = some o' →
         o'.modified_fields = [] ∧ o'.is_modified = false)
    ∧ ((Orm.insert s iset iget dbpk o).1 = Except.ok true →
         (Orm.insert s iset iget dbpk o).2.1.modified_fields = [] ∧
         (Orm.insert s iset iget dbpk o).2.1.is_modified = false)
    ∧ ((Orm.update s iset iget dbOk o).1 = Except.ok true →
         (Orm.update s iset iget dbOk o).2.1.modified_fields = [] ∧
         (Orm.update s iset iget dbOk o).2.1.is_modified = false) := by
  refine ⟨⟨rfl, is_modified_false_of_nil rfl⟩, ?_, ?_, ?_⟩
  · intro hp
    have hn := populate_modified_eq_nil hp
    exact ⟨hn, is_modified_false_of_nil hn⟩
  · intro h
    have hn := insert_ok_true_modified_nil h
    exact ⟨hn, is_modified_false_of_nil hn⟩
  · intro h
    have hn := update_ok_true_modified_nil h
    exact ⟨hn, is_modified_false_of_nil hn⟩

/-- Witness for C6: a successful populate, insert and update on concrete
instances, each leaving `modified_fields` empty. -/
theorem persistence_resets_modified_w :
    Orm.populate egSchema egIget egOrmClean [("foo", Value.vint 9)] = some egOrmPop ∧
    egOrmPop.modified_fields = [] ∧
    (Orm.insert egSchema egIset egIget (Value.vint 7) egOrmNoPk).1 = Except.ok true ∧
    (Orm.insert egSchema egIset egIget (Value.vint 7) egOrmNoPk).2.1.modified_fields = [] ∧
    (Orm.update egSchema egIset egIget true egOrmClean).1 = Except.ok true ∧
    (Orm.update egSchema egIset egIget true egOrmClean).2.1.modified_fields = [] := by
  have h1 := persistence_resets_modified egSchema egIset egIget (Value.vint 7) true
    [("foo", Value.vint 9)] egOrmClean egOrmPop
  have h2 := persistence_resets_modified egSchema egIset egIget (Value.vint 7) true
    [("foo", Value.vint 9)] egOrmNoPk egOrmPop
  exact ⟨rfl, (h1.2.1 rfl).1, rfl, (h2.2.2.1 rfl).1, rfl, (h1.2.2.2 rfl).1⟩

/-- C7: `jsonable()` is a JSON-safe dict: an entry `(k, v)` is present
exactly when `k` is a normal field whose `jsonable_field`-converted value
`v` is not `None` (so `None`-valued fields are omitted and, when the
magic names are not among the normal fields, they never appear);
`jsonable_field` turns dates and datetimes into their `datestamp` strings
(`"%Y-%m-%d"` and `"%Y-%m-%dT%H:%M:%S.%fZ"`, shown on concrete samples)
and passes every other value through unchanged. -/
theorem jsonable_json_safe (s : Schema) (o : Orm)
    (hid : "_id" ∉ s.normal_fields) (hcr : "_created" ∉ s.normal_fields)
    (hup : "_updated" ∉ s.normal_fields) :
    (∀ k v, (k, v) ∈ Orm.jsonable s o ↔
        k ∈ s.normal_fields ∧ v = o.jsonable_field k (o.getattrD k) ∧
          v ≠ Value.none)
    ∧ (∀ v, ("_id", v) ∉ Orm.jsonable s o ∧ ("_created", v) ∉ Orm.jsonable s o ∧
        ("_updated", v) ∉ Orm.jsonable s o)
    ∧ (∀ k y m d, o.jsonable_field k (Value.vdate y m d) =
        Value.vstr (Orm.datestamp (Value.vdate y m d)))
    ∧ (∀ k y m d hh mm ss us, o.jsonable_field k (Value.vdatetime y m d hh mm ss us) =
        Value.vstr (Orm.datestamp (Value.vdatetime y m d hh mm ss us)))
    ∧ (∀ k v, v.isDateLike = false → o.jsonable_field k v = v)
    ∧ Orm.datestamp (Value.vdate 2020 1 2) = "2020-01-02"
    ∧ Orm.datestamp (Value.vdatetime 2020 1 2 3 4 5 6) =
        "2020-01-02T03:04:05.000006Z" := by
  have hmem : ∀ k v, (k, v) ∈ Orm.jsonable s o ↔
      k ∈ s.normal_fields ∧ v = o.jsonable_field k (o.getattrD k) ∧
        v ≠ Value.none := by
    intro k v
    unfold Orm.jsonable
    rw [List.mem_filterMap]
    constructor
    · rintro ⟨a, ha, hf⟩
      by_cases hv : o.jsonable_field a (o.getattrD a) = Value.none
      · simp [hv] at hf
      · rw [if_neg hv] at hf
        obtain ⟨rfl, rfl⟩ := Prod.mk.injEq .. ▸ Option.some.injEq _ _ ▸ hf
        exact ⟨ha, rfl, hv⟩
    · rintro ⟨hk, rfl, hv⟩
      exact ⟨k, hk, by rw [if_neg hv]⟩
  refine ⟨hmem, ?_, ?_, ?_, ?_, rfl, rfl⟩
  · intro v
    refine ⟨fun hc => hid ((hmem _ _).mp hc).1,
            fun hc => hcr ((hmem _ _).mp hc).1,
            fun hc => hup ((hmem _ _).mp hc).1⟩
  · intro k y m d
    unfold Orm.jsonable_field
    rw [if_pos ⟨fun hc => Value.noConfusion hc, rfl⟩]
  · intro k y m d hh mm ss us
    unfold Orm.jsonable_field
    rw [if_pos ⟨fun hc => Value.noConfusion hc, rfl⟩]
  · intro k v hv
    unfold Orm.jsonable_field
    rw [if_neg (by simp [hv])]

/-- Witness for C7 at a concrete schema and instance holding a date. -/
theorem jsonable_json_safe_w :
    Orm.datestamp (Value.vdate 2020 1 2) = "2020-01-02" ∧
    Orm.datestamp (Value.vdatetime 2020 1 2 3 4 5 6) =
      "2020-01-02T03:04:05.000006Z" ∧
    ("foo", Value.vstr "2020-01-02") ∈ Orm.jsonable egSchema egOrmDate := by
  have h := jsonable_json_safe egSchema egOrmDate (by decide) (by decide) (by decide)
  exact ⟨h.2.2.2.2.2.1, h.2.2.2.2.2.2,
    (h.1 "foo" (Value.vstr "2020-01-02")).mpr ⟨by decide, by decide, by decide⟩⟩

theorem delete_eq (s : Schema) (o : Orm) :
    Orm.delete s o =
      if (Orm.pk s o).truthy = true then
        (true,
         { attrs := setAssoc o.attrs s.pk_name Value.none,
           modified_fields := s.fields.filter (fun k =>
             ({ attrs := setAssoc o.attrs s.pk_name Value.none,
                modified_fields := ([] : List String) } : Orm).getattrD k ≠
               Value.none) },
         [DbCall.delete (s.pk_name, Orm.pk s o)])
      else (false, o, []) := rfl

/-- C9: `delete()` with an unset (falsy) primary key returns `False` with
no database call and no state change; with a set primary key it returns
`True`, afterwards the primary-key attribute is `None` and
`modified_fields` holds exactly the schema fields whose current value is
not `None`. -/
theorem delete_postcondition (s : Schema) (o : Orm) :
    ((Orm.pk s o).truthy = false → Orm.delete s o = (false, o, []))
    ∧ ((Orm.pk s o).truthy = true →
        (Orm.delete s o).1 = true ∧
        (Orm.delete s o).2.1.getattrD s.pk_name = Value.none ∧
        (∀ k, k ∈ (Orm.delete s o).2.1.modified_fields ↔
            k ∈ s.fields ∧ (Orm.delete s o).2.1.getattrD k ≠ Value.none)) := by
  constructor
  · intro h
    rw [delete_eq, if_neg (by rw [h]; exact Bool.false_ne_true)]
  · intro h
    rw [delete_eq, if_pos h]
    refine ⟨rfl, ?_, ?_⟩
    · simp [Orm.getattrD, lookupD, lookupAssoc_setAssoc_self]
    · intro k
      rw [List.mem_filter]
      simp [Orm.getattrD]

/-- Witness for C9 at a pk-less and a pk-bearing instance. -/
theorem delete_postcondition_w :
    Orm.delete egSchema egOrmNoPk = (false, egOrmNoPk, []) ∧
    (Orm.delete egSchema egOrmClean).1 = true ∧
    (Orm.delete egSchema egOrmClean).2.1.getattrD "_id" = Value.none ∧
    ("foo" ∈ (Orm.delete egSchema egOrmClean).2.1.modified_fields ↔
      "foo" ∈ egSchema.fields ∧
        (Orm.delete egSchema egOrmClean).2.1.getattrD "foo" ≠ Value.none) := by
  have h1 := (delete_postcondition egSchema egOrmNoPk).1 (by decide)
  have h2 := (delete_postcondition egSchema egOrmClean).2 (by decide)
  exact ⟨h1, h2.1, h2.2.1, h2.2.2 "foo"⟩

/-- C10: `modify()` touches only schema fields: the returned set holds
exactly the input keys that are schema fields, attributes outside the
schema are left untouched, and (for a dict, whose keys are unique) every
schema-field entry of the input is stored as given. -/
theorem modify_only_schema_fields (s : Schema) (o : Orm)
    (fields : List (String × Value)) :
    (∀ k, k ∈ (Orm.modify s o fields).2 ↔ (∃ v, (k, v) ∈ fields) ∧ k ∈ s.fields)
    ∧ (∀ k, k ∉ s.fields → (Orm.modify s o fields).1.getattrD k = o.getattrD k)
    ∧ ((fields.map Prod.fst).Nodup →
        ∀ k v, (k, v) ∈ fields → k ∈ s.fields →
          (Orm.modify s o fields).1.getattrD k = v) := by
  refine ⟨?_, ?_, ?_⟩
  · intro k
    rw [modify_eq_foldl, modify_foldl_snd_mem]
    simp
  · intro k hk
    rw [modify_eq_foldl, modify_foldl_fst_not_mem_schema s fields _ hk]
  · intro hnd k v hkv hks
    rw [modify_eq_foldl, modify_foldl_fst_set s fields _ hnd hkv hks]

/-- Witness for C10 at a concrete input mixing a schema and a non-schema
key. -/
theorem modify_only_schema_fields_w :
    (Orm.modify egSchema egOrmClean
        [("foo", Value.vint 9), ("nope", Value.vint 3)]).1.getattrD "nope" =
      egOrmClean.getattrD "nope" ∧
    (Orm.modify egSchema egOrmClean
        [("foo", Value.vint 9), ("nope", Value.vint 3)]).1.getattrD "foo" =
      Value.vint 9 ∧
    "nope" ∉ (Orm.modify egSchema egOrmClean
        [("foo", Value.vint 9), ("nope", Value.vint 3)]).2 := by
  have h := modify_only_schema_fields egSchema egOrmClean
    [("foo", Value.vint 9), ("nope", Value.vint 3)]
  refine ⟨h.2.1 "nope" (by decide),
    h.2.2 (by decide) "foo" (Value.vint 9) (by decide) (by decide), ?_⟩
  intro hmem
  exact absurd ((h.1 "nope").mp hmem).2 (by decide)
